import Mathlib

/-!
Verification development for the devcontainer configuration-resolution and
invocation-synthesis pipeline (`pkg/devcontainer`).

The Go source is shallowly embedded: Go `interface{}` JSON-like values become
the inductive `JVal`; Go maps become association lists with a fixed iteration
order (Go map iteration order is unspecified, the list fixes one order); Go
strings are Lean `String`s and the string-scanning helpers operate on their
character lists; fallible functions return `Except`.  In-place mutation of a
caller-visible value (the merge engine writes through maps and pointers that
are shared between its result and its `base` argument) is modelled by
returning the post-state of the mutated argument alongside the result.
-/

namespace DevcontainerProof

/-- JSON-like dynamic value, the embedding of Go `interface{}` as produced by
`encoding/json`: strings, numbers, booleans, arrays and string-keyed objects.
JSON numbers decode to Go `float64`; the source only ever converts them with
`int(...)`, so they are embedded as integers. -/
inductive JVal where
  | str (s : String)
  | num (n : Int)
  | bool (b : Bool)
  | arr (xs : List JVal)
  | obj (fields : List (String × JVal))
deriving Repr

/-- Lookup of a key in an embedded Go map (`m[k]`). -/
def jlookup (fields : List (String × JVal)) (k : String) : Option JVal :=
  match fields with
  | [] => none
  | (k2, v) :: rest => if k2 = k then some v else jlookup rest k

/-- Embedding of `m[k].(string)` — the value under `k` when it exists and is a string. -/
def jlookupStr (fields : List (String × JVal)) (k : String) : Option String :=
  match jlookup fields k with
  | some (JVal.str s) => some s
  | _ => none

/-- Embedding of `m[k].(bool)` — the value under `k` when it exists and is a boolean. -/
def jlookupBool (fields : List (String × JVal)) (k : String) : Option Bool :=
  match jlookup fields k with
  | some (JVal.bool b) => some b
  | _ => none

/-- Embedding of `m[k] = v` on an embedded Go map: replace the binding when present,
otherwise append it. -/
def jstore (fields : List (String × JVal)) (k : String) (v : JVal) :
    List (String × JVal) :=
  match fields with
  | [] => [(k, v)]
  | (k2, w) :: rest =>
    if k2 = k then (k2, v) :: rest else (k2, w) :: jstore rest k v

/-- Embedding of `strings.ReplaceAll` on character lists: every non-overlapping occurrence
of `pat` is replaced by `rep`, scanning left to right.  The source only ever
passes non-empty literal patterns; an empty pattern leaves the string
unchanged.  The scan consumes at least one character per step, so it is
driven by a fuel equal to the input length (the fuel-exhausted branch is
unreachable from `listReplaceAll`); the fuel makes the recursion structural
so that concrete inputs evaluate by kernel reduction. -/
def listReplaceAllAux (pat rep : List Char) : Nat → List Char → List Char
  | 0, l => l
  | _ + 1, [] => []
  | fuel + 1, c :: rest =>
    if pat ≠ [] ∧ pat.isPrefixOf (c :: rest) then
      rep ++ listReplaceAllAux pat rep fuel (List.drop (pat.length - 1) rest)
    else
      c :: listReplaceAllAux pat rep fuel rest

/-- Embedding of `strings.ReplaceAll` on character lists. -/
def listReplaceAll (pat rep l : List Char) : List Char :=
  listReplaceAllAux pat rep l.length l

/-- Embedding of `strings.ReplaceAll(s, pat, rep)`. -/
def strReplaceAll (s pat rep : String) : String :=
  ⟨listReplaceAll pat.data rep.data s.data⟩

/-- One attempted match of the regular expression
`\$\{localEnv:([^}:]+)(?::([^}]*))?\}` at the head of the input: on success,
the captured name, the optional captured default, and the total number of
characters the match consumed. -/
def matchLocalEnv (l : List Char) : Option (String × Option String × Nat) :=
  if ("$\x7blocalEnv:".data).isPrefixOf l then
    let after := l.drop 11
    let name := after.takeWhile (fun ch => ch ≠ '}' ∧ ch ≠ ':')
    if name = [] then none
    else
      match after.drop name.length with
      | '}' :: _ => some (⟨name⟩, none, 11 + name.length + 1)
      | ':' :: rem2 =>
        let dflt := rem2.takeWhile (fun ch => ch ≠ '}')
        match rem2.drop dflt.length with
        | '}' :: _ => some (⟨name⟩, some ⟨dflt⟩, 11 + name.length + 1 + dflt.length + 1)
        | _ => none
      | _ => none
  else none

/-- The replacement a matched `${localEnv:NAME[:default]}` reference
resolves to: the host value when present and non-empty, else the default
when captured non-empty, else `none` (the reference is left in place and
`NAME` is missing).  The Go code reads `def` as the empty string when the
default group did not participate, so an absent group and an empty default
behave identically. -/
def localEnvReplacement (env : String → Option String) (name : String)
    (dflt : Option String) : Option String :=
  match env name with
  | some v =>
    if v ≠ "" then some v
    else
      match dflt with
      | some d => if d ≠ "" then some d else none
      | none => none
  | none =>
    match dflt with
    | some d => if d ≠ "" then some d else none
    | none => none

/-- Embedding of `resolveLocalEnvVars` on character lists: the regex replacement pass
over the input, leftmost match first, the replacement text never rescanned.
`env` is the embedding of `os.LookupEnv`.  Every successful match consumes
at least one character, so the scan is driven by a fuel equal to the input
length (the fuel-exhausted branch is unreachable from
`resolveLocalEnvList`); the fuel makes the recursion structural so that
concrete inputs evaluate by kernel reduction. -/
def resolveLocalEnvAux (env : String → Option String) :
    Nat → List Char → List Char × List String
  | 0, l => (l, [])
  | _ + 1, [] => ([], [])
  | fuel + 1, c :: rest =>
    match matchLocalEnv (c :: rest) with
    | some (name, dflt, k) =>
      let tail := resolveLocalEnvAux env fuel ((c :: rest).drop k)
      match localEnvReplacement env name dflt with
      | some r => (r.data ++ tail.1, tail.2)
      | none => ((c :: rest).take k ++ tail.1, name :: tail.2)
    | none =>
      let tail := resolveLocalEnvAux env fuel rest
      (c :: tail.1, tail.2)

/-- The regex replacement pass of `resolveLocalEnvVars` on character
lists. -/
def resolveLocalEnvList (env : String → Option String) (l : List Char) :
    List Char × List String :=
  resolveLocalEnvAux env l.length l

/-- Embedding of `resolveLocalEnvVars(in)`: the resolved string and the names that could
not be resolved, in occurrence order. -/
def resolveLocalEnvVars (env : String → Option String) (s : String) :
    String × List String :=
  let r := resolveLocalEnvList env s.data
  (⟨r.1⟩, r.2)

/-- Embedding of `filepath.Base` (pure lexical function): the last element of the path
after removing trailing slashes; `"."` for the empty path; `"/"` when the
path is all slashes. -/
def pathBase (p : String) : String :=
  if p = "" then "."
  else
    let r := p.data.reverse.dropWhile (fun c => c = '/')
    if r = [] then "/"
    else ⟨(r.takeWhile (fun c => c ≠ '/')).reverse⟩

/-- Embedding of `GetStandardVariables`: the well-known workspace variables, in the
source literal order (the Go map iteration order is unspecified; the
association list fixes this one). -/
def getStandardVariables (workspaceFolder : String) : List (String × String) :=
  let basename := pathBase workspaceFolder
  [("localWorkspaceFolder", workspaceFolder),
   ("localWorkspaceFolderBasename", basename),
   ("containerWorkspaceFolder", "/workspaces/" ++ basename),
   ("containerWorkspaceFolderBasename", basename)]

/-- Embedding of `expandVariableString`: replace `${key}` and bare `$key` for every
well-known variable, then resolve `${localEnv:VAR[:default]}` references,
discarding the missing-name list (the `result, _ =` assignment in the
source). -/
def expandVariableString (env : String → Option String) (vars : List (String × String))
    (s : String) : String :=
  let r := vars.foldl (fun acc kv =>
    strReplaceAll (strReplaceAll acc ("$\x7b" ++ kv.1 ++ "\x7d") kv.2) ("$" ++ kv.1) kv.2) s
  (resolveLocalEnvVars env r).1

mutual

/-- The `expandInterface` closure inside `ExpandVariables`: strings are
expanded; array elements are expanded only when they are strings (no
recursion into non-string elements); object values are expanded
recursively; everything else is returned unchanged. -/
def expandInterface (env : String → Option String) (vars : List (String × String)) :
    JVal → JVal
  | JVal.str s => JVal.str (expandVariableString env vars s)
  | JVal.arr xs => JVal.arr (xs.map (fun item =>
      match item with
      | JVal.str s => JVal.str (expandVariableString env vars s)
      | other => other))
  | JVal.obj fields => JVal.obj (expandInterfaceFields env vars fields)
  | v => v

def expandInterfaceFields (env : String → Option String) (vars : List (String × String)) :
    List (String × JVal) → List (String × JVal)
  | [] => []
  | (k, v) :: rest =>
    (k, expandInterface env vars v) :: expandInterfaceFields env vars rest

end

/-- Embedding of `NonComposeBase` (non-compose-only descriptor fields).  The Go slice
`RunArgs` distinguishes nil from empty, and both the merge engine and the
synthesizer test that nil-ness, so it is embedded as `Option (List String)`. -/
structure NonComposeBase where
  runArgs : Option (List String) := none
  workspaceFolder : Option String := none
  workspaceMount : Option String := none
  appPort : Option JVal := none
deriving Repr

/-- Embedding of `DevContainerCommonFeatures`. -/
structure Features where
  fish : String := ""
  gradle : String := ""
  maven : String := ""
  additionalProperties : List (String × JVal) := []
deriving Repr

/-- The `DevContainer` descriptor.  `imageContainer` embeds the
single-field `ImageContainer` pointer; `composeService` records the
presence of a `ComposeContainer` (the synthesizer never reads it);
`containerEnv` is `Option` because the merge engine distinguishes a nil
map from an empty one; `initCommand` embeds the source
`InitializeCommand` lifecycle hook. -/
structure DevContainer where
  image : String := ""
  imageContainer : Option String := none
  dockerfileContainer : String := ""
  composeService : Option String := none
  workspaceFolder : String := ""
  workspaceMount : String := ""
  containerEnv : Option (List (String × String)) := none
  containerUser : Option String := none
  forwardPorts : Option JVal := none
  appPort : Option JVal := none
  onCreateCommand : Option JVal := none
  updateContentCommand : Option JVal := none
  postCreateCommand : Option JVal := none
  postStartCommand : Option JVal := none
  postAttachCommand : Option JVal := none
  initCommand : Option JVal := none
  mounts : List JVal := []
  capAdd : List String := []
  securityOpt : List String := []
  init : Option Bool := none
  privileged : Option Bool := none
  features : Option Features := none
  name : Option String := none
  nonComposeBase : Option NonComposeBase := none
deriving Repr

/-- The entries of a possibly-nil Go map (ranging over a nil map visits
nothing). -/
def envEntries (m : Option (List (String × String))) : List (String × String) :=
  m.getD []

/-- Mount-entry expansion inside `ExpandVariables`: a string mount is
expanded as a whole; an object mount has its `source` and `target` values
expanded (when present as strings) and stored back; other entries are left
alone. -/
def expandMountEntry (env : String → Option String) (vars : List (String × String)) :
    JVal → JVal
  | JVal.str s => JVal.str (expandVariableString env vars s)
  | JVal.obj m =>
    let m1 := match jlookupStr m "source" with
      | some src => jstore m "source" (JVal.str (expandVariableString env vars src))
      | none => m
    let m2 := match jlookupStr m1 "target" with
      | some tgt => jstore m1 "target" (JVal.str (expandVariableString env vars tgt))
      | none => m1
    JVal.obj m2
  | v => v

/-- Embedding of `ExpandVariables`: expansion of every lifecycle hook, mount entry,
`NonComposeBase` workspace string, environment value and the common
workspace strings.  The source mutates `dc` in place; the embedding returns
the updated descriptor. -/
def expandVariables (env : String → Option String) (vars : List (String × String))
    (dc : DevContainer) : DevContainer :=
  { dc with
    initCommand := dc.initCommand.map (expandInterface env vars)
    onCreateCommand := dc.onCreateCommand.map (expandInterface env vars)
    updateContentCommand := dc.updateContentCommand.map (expandInterface env vars)
    postCreateCommand := dc.postCreateCommand.map (expandInterface env vars)
    postStartCommand := dc.postStartCommand.map (expandInterface env vars)
    postAttachCommand := dc.postAttachCommand.map (expandInterface env vars)
    mounts := dc.mounts.map (expandMountEntry env vars)
    nonComposeBase := dc.nonComposeBase.map (fun ncb =>
      { ncb with
        workspaceMount := ncb.workspaceMount.map (expandVariableString env vars)
        workspaceFolder := ncb.workspaceFolder.map (expandVariableString env vars) })
    containerEnv := dc.containerEnv.map (List.map (fun kv =>
      (kv.1, expandVariableString env vars kv.2)))
    workspaceFolder :=
      if dc.workspaceFolder ≠ "" then expandVariableString env vars dc.workspaceFolder
      else dc.workspaceFolder
    workspaceMount :=
      if dc.workspaceMount ≠ "" then expandVariableString env vars dc.workspaceMount
      else dc.workspaceMount }

/-- The `${localEnv:...}` resolution pass over one mount entry at the start
of `BuildDockerRunCommand`: a string mount is resolved as a whole; an
object mount has its `source` then its `target` resolved and stored back;
other entries are untouched.  Returns the updated entry and the missing
names it contributed, source before target. -/
def resolveMountEntry (env : String → Option String) : JVal → JVal × List String
  | JVal.str s =>
    let r := resolveLocalEnvVars env s
    (JVal.str r.1, r.2)
  | JVal.obj m =>
    let p1 := match jlookupStr m "source" with
      | some src =>
        let r := resolveLocalEnvVars env src
        (jstore m "source" (JVal.str r.1), r.2)
      | none => (m, [])
    let p2 := match jlookupStr p1.1 "target" with
      | some tgt =>
        let r := resolveLocalEnvVars env tgt
        (jstore p1.1 "target" (JVal.str r.1), r.2)
      | none => (p1.1, [])
    (JVal.obj p2.1, p1.2 ++ p2.2)
  | v => (v, [])

/-- Embedding of `uniqueStrings`: first occurrence of each string kept, later duplicates
dropped (the seen-set is embedded as the list of strings already seen). -/
def uniqueAux (seen : List String) : List String → List String
  | [] => []
  | s :: rest => if s ∈ seen then uniqueAux seen rest else s :: uniqueAux (s :: seen) rest

/-- Embedding of `uniqueStrings(in)`. -/
def uniqueStrings (l : List String) : List String := uniqueAux [] l

/-- Embedding of `fmt.Sprintf("%d:%d", int(p), int(p))`. -/
def formatPort (n : Int) : String := toString n ++ ":" ++ toString n

/-- Embedding of `parseForwardPorts`: only an array contributes; numbers become `N:N`,
strings pass through, other elements are skipped. -/
def parseForwardPorts : JVal → List String
  | JVal.arr v => v.flatMap (fun port =>
      match port with
      | JVal.num p => [formatPort p]
      | JVal.str s => [s]
      | _ => [])
  | _ => []

/-- Embedding of `parseAppPorts`: a bare number becomes `N:N`, a string passes through,
an array contributes element-wise like `parseForwardPorts`. -/
def parseAppPorts : JVal → List String
  | JVal.num v => [formatPort v]
  | JVal.str v => [v]
  | JVal.arr v => v.flatMap (fun port =>
      match port with
      | JVal.num p => [formatPort p]
      | JVal.str s => [s]
      | _ => [])
  | _ => []

/-- Embedding of `buildMountStringFromMap`: `type=` (default `bind`), then `,source=`
when present as a string, then `,target=` when present as a string, then
`,readonly` when the `readonly` key holds `true`. -/
def buildMountStringFromMap (m : List (String × JVal)) : String :=
  let mountType := (jlookupStr m "type").getD "bind"
  let r := "type=" ++ mountType
  let r := match jlookupStr m "source" with
    | some s => r ++ ",source=" ++ s
    | none => r
  let r := match jlookupStr m "target" with
    | some t => r ++ ",target=" ++ t
    | none => r
  match jlookupBool m "readonly" with
  | some true => r ++ ",readonly"
  | _ => r

/-- The port-deduplication loop body of `BuildDockerRunCommand`: state is
the emitted list and the seen-set (`portSet`). -/
def addPortsSeen : List String × List String → List String → List String × List String
  | st, [] => st
  | (acc, seen), p :: rest =>
    if p ∈ seen then addPortsSeen (acc, seen) rest
    else addPortsSeen (acc ++ [p], p :: seen) rest

/-- The candidates one port field contributes: a nil field is guarded by
`!= nil` in the source and contributes nothing, which is the same as
running its loop over the empty list. -/
def portCandidates (o : Option JVal) (parse : JVal → List String) : List String :=
  match o with
  | some v => parse v
  | none => []

/-- The port section of `BuildDockerRunCommand`: declared app-port(s),
then the `NonComposeBase` app-port (guarded by both nil checks, hence the
`bind`), then forwarded ports, all through one shared seen-set. -/
def buildPorts (dc : DevContainer) : List String :=
  let st : List String × List String := ([], [])
  let st := addPortsSeen st (portCandidates dc.appPort parseAppPorts)
  let st := addPortsSeen st
    (portCandidates (dc.nonComposeBase.bind (fun n => n.appPort)) parseAppPorts)
  let st := addPortsSeen st (portCandidates dc.forwardPorts parseForwardPorts)
  st.1

/-- One step of the mount loop of `BuildDockerRunCommand`: a string mount
is appended verbatim; an object mount is converted with
`buildMountStringFromMap` and appended when non-empty; other entries are
skipped. -/
def mountFoldStep (acc : List String) (mount : JVal) : List String :=
  match mount with
  | JVal.str m => acc ++ [m]
  | JVal.obj m =>
    let s := buildMountStringFromMap m
    if s ≠ "" then acc ++ [s] else acc
  | _ => acc

/-- The mount section of `BuildDockerRunCommand`. -/
def buildMounts (mounts : List JVal) : List String :=
  mounts.foldl mountFoldStep []

/-- Embedding of `DockerRunConfig`.  `Environment` is an association list (the Go map
iteration order is unspecified); `RunArgs` is a plain list — the nil/empty
distinction of the Go slice is unobservable in `ToDockerRunArgs`, which
appends it element-wise. -/
structure DockerRunConfig where
  image : String := ""
  workspaceMount : String := ""
  workspaceFolder : String := ""
  environment : List (String × String) := []
  ports : List String := []
  mounts : List String := []
  capAdd : List String := []
  capabilities : List String := []
  securityOpt : List String := []
  securityOpts : List String := []
  init : Bool := false
  privileged : Bool := false
  user : String := ""
  name : String := ""
  command : List String := []
  runArgs : List String := []
deriving Repr, DecidableEq

/-- The errors `BuildDockerRunCommand` can return. -/
inductive BuildErr where
  | unresolvedVariables (names : List String)
  | noImageSpecified
deriving Repr, DecidableEq

/-- Embedding of `filepath.Abs`, modelled as the identity: no claim inspects the
workspace-mount string it feeds, and every concrete input in this
development is an absolute, already-clean path on which `Abs` is the
identity. -/
def absPath (p : String) : String := p

/-- The missing-name aggregation of `BuildDockerRunCommand`: the
concatenation, in mount order, of the missing names each resolved mount
contributed. -/
def mountMissingNames (env : String → Option String) (mounts : List JVal) : List String :=
  (mounts.map (fun m => (resolveMountEntry env m).2)).flatten

/-- The descriptor after the `ExpandVariables` call at the top of
`BuildDockerRunCommand`. -/
def expandedDC (env : String → Option String) (dc : DevContainer) (ws : String) :
    DevContainer :=
  expandVariables env (getStandardVariables ws) dc

/-- The descriptor after the mount `${localEnv:...}` resolution loop of
`BuildDockerRunCommand` (which rewrites `dc.Mounts` in place). -/
def resolvedDC (env : String → Option String) (dc : DevContainer) (ws : String) :
    DevContainer :=
  { expandedDC env dc ws with
    mounts := (expandedDC env dc ws).mounts.map (fun m => (resolveMountEntry env m).1) }

/-- The aggregated missing-variable names the mount resolution loop of
`BuildDockerRunCommand` collects. -/
def buildMissing (env : String → Option String) (dc : DevContainer) (ws : String) :
    List String :=
  mountMissingNames env (expandedDC env dc ws).mounts

/-- Embedding of `BuildDockerRunCommand`, embedded as a pure function of the host
environment, the descriptor and the workspace folder. -/
def buildDockerRunCommand (env : String → Option String) (dc0 : DevContainer)
    (workspaceFolder : String) : Except BuildErr DockerRunConfig :=
  let dc := resolvedDC env dc0 workspaceFolder
  let missing := buildMissing env dc0 workspaceFolder
  if missing ≠ [] then
    Except.error (BuildErr.unresolvedVariables (uniqueStrings missing))
  else
    match (match dc.imageContainer with
           | some i => some i
           | none => if dc.image ≠ "" then some dc.image else none) with
    | none => Except.error BuildErr.noImageSpecified
    | some img =>
      let wf := match dc.nonComposeBase.bind (fun n => n.workspaceFolder) with
        | some w => w
        | none =>
          if dc.workspaceFolder = "" then "/workspaces/" ++ pathBase workspaceFolder
          else dc.workspaceFolder
      let wm := match dc.nonComposeBase.bind (fun n => n.workspaceMount) with
        | some w => w
        | none =>
          if dc.workspaceMount ≠ "" then dc.workspaceMount
          else "type=bind,source=" ++ absPath workspaceFolder ++ ",target=" ++ wf
      Except.ok
        { image := img
          workspaceFolder := wf
          workspaceMount := wm
          environment := envEntries dc.containerEnv
          ports := buildPorts dc
          mounts := buildMounts dc.mounts
          capAdd := dc.capAdd
          capabilities := dc.capAdd
          securityOpt := dc.securityOpt
          securityOpts := dc.securityOpt
          init := dc.init.getD false
          privileged := dc.privileged.getD false
          user := match dc.containerUser with
            | some u => if u ≠ "" then u else ""
            | none => ""
          name := match dc.name with
            | some n => if n ≠ "" then n else ""
            | none => ""
          command := []
          runArgs := match dc.nonComposeBase with
            | some ncb => ncb.runArgs.getD []
            | none => [] }

/-- One `for _, x := range l { args = append(args, <flags for x>...) }`
loop of `ToDockerRunArgs`. -/
def appendEach {β : Type} (acc : List String) (f : β → List String) (l : List β) :
    List String :=
  l.foldl (fun a x => a ++ f x) acc

/-- Embedding of `ToDockerRunArgs`: the sequential append chain of the source, one `let`
per source block. -/
def toDockerRunArgs (c : DockerRunConfig) : List String :=
  let args := ["run", "--rm", "-it"]
  let args := if c.name ≠ "" then args ++ ["--name", c.name] else args
  let args := if c.workspaceMount ≠ "" ∧ c.workspaceMount ≠ "none" then
    args ++ ["-v", c.workspaceMount] else args
  let args := if c.workspaceFolder ≠ "" then args ++ ["-w", c.workspaceFolder] else args
  let args := appendEach args (fun kv => ["-e", kv.1 ++ "=" ++ kv.2]) c.environment
  let args := appendEach args (fun p => ["-p", p]) c.ports
  let args := args ++ c.runArgs
  let args := appendEach args (fun m => ["--mount", m]) c.mounts
  let caps := if c.capAdd = [] ∧ c.capabilities ≠ [] then c.capabilities else c.capAdd
  let args := appendEach args (fun x => ["--cap-add", x]) caps
  let opts := if c.securityOpt = [] ∧ c.securityOpts ≠ [] then c.securityOpts else c.securityOpt
  let args := appendEach args (fun x => ["--security-opt", x]) opts
  let args := if c.init then args ++ ["--init"] else args
  let args := if c.privileged then args ++ ["--privileged"] else args
  let args := if c.user ≠ "" then args ++ ["-u", c.user] else args
  let args := args ++ [c.image]
  args ++ c.command

/-- Go map store for string-valued maps: replace the binding when the key
is present, otherwise append it. -/
def mapInsertStr (m : List (String × String)) (k v : String) : List (String × String) :=
  match m with
  | [] => [(k, v)]
  | (k2, w) :: rest =>
    if k2 = k then (k2, v) :: rest else (k2, w) :: mapInsertStr rest k v

/-- Embedding of `for k, v := range entries { m[k] = v }`. -/
def mapInsertAll (m : List (String × String)) (entries : List (String × String)) :
    List (String × String) :=
  entries.foldl (fun acc kv => mapInsertStr acc kv.1 kv.2) m

/-- Embedding of `for k, v := range entries { m[k] = v }` for JSON-valued maps. -/
def jstoreAll (m : List (String × JVal)) (entries : List (String × JVal)) :
    List (String × JVal) :=
  entries.foldl (fun acc kv => jstore acc kv.1 kv.2) m

/-- Embedding of `mergeFeatures`: nil is neutral; otherwise a fresh value with base
versions, overridden by non-empty override versions, and the additional
properties key-wise unioned with override winning. -/
def mergeFeatures (base override : Option Features) : Option Features :=
  match base, override with
  | none, o => o
  | some b, none => some b
  | some b, some o =>
    some
      { fish := if o.fish ≠ "" then o.fish else b.fish
        gradle := if o.gradle ≠ "" then o.gradle else b.gradle
        maven := if o.maven ≠ "" then o.maven else b.maven
        additionalProperties :=
          jstoreAll (jstoreAll [] b.additionalProperties) o.additionalProperties }

/-- Embedding of `MergeDevContainers` on two non-nil descriptors.

The source starts with `result := *base`, a SHALLOW copy: `result` shares
base `ContainerEnv` map and `NonComposeBase` pointer.  The subsequent
writes `result.ContainerEnv[k] = v` and `result.NonComposeBase.<field> = …`
therefore go through storage that `base` still references.  The embedding
returns the pair `(result, base-after-merge)`: the second component is the
state of `base` once the merge returns, with those shared writes applied. -/
def mergeDevContainersCore (base override : DevContainer) : DevContainer × DevContainer :=
  let envPair : Option (List (String × String)) × Option (List (String × String)) :=
    if envEntries override.containerEnv ≠ [] then
      match base.containerEnv with
      | some m =>
        let merged := mapInsertAll m (envEntries override.containerEnv)
        (some merged, some merged)
      | none =>
        (some (mapInsertAll [] (envEntries override.containerEnv)), none)
    else (base.containerEnv, base.containerEnv)
  let ncbPair : Option NonComposeBase × Option NonComposeBase :=
    match override.nonComposeBase with
    | none => (base.nonComposeBase, base.nonComposeBase)
    | some oncb =>
      match base.nonComposeBase with
      | none => (some oncb, none)
      | some bncb =>
        let updated : NonComposeBase :=
          { workspaceFolder := match oncb.workspaceFolder with
              | some w => some w
              | none => bncb.workspaceFolder
            workspaceMount := match oncb.workspaceMount with
              | some w => some w
              | none => bncb.workspaceMount
            appPort := match oncb.appPort with
              | some a => some a
              | none => bncb.appPort
            runArgs := oncb.runArgs }
        (some updated, some updated)
  let result : DevContainer :=
    { base with
      image := if override.image ≠ "" then override.image else base.image
      imageContainer := match override.imageContainer with
        | some i => some i
        | none => base.imageContainer
      name := match override.name with
        | some n => some n
        | none => base.name
      containerEnv := envPair.1
      forwardPorts := match override.forwardPorts with
        | some f => some f
        | none => base.forwardPorts
      capAdd := if override.capAdd ≠ [] then override.capAdd else base.capAdd
      securityOpt := if override.securityOpt ≠ [] then override.securityOpt
        else base.securityOpt
      features := if base.features.isSome ∨ override.features.isSome then
        mergeFeatures base.features override.features else base.features
      mounts := if override.mounts.isEmpty then base.mounts else override.mounts
      nonComposeBase := ncbPair.1
      initCommand := match override.initCommand with
        | some c => some c
        | none => base.initCommand
      onCreateCommand := match override.onCreateCommand with
        | some c => some c
        | none => base.onCreateCommand
      updateContentCommand := match override.updateContentCommand with
        | some c => some c
        | none => base.updateContentCommand
      postCreateCommand := match override.postCreateCommand with
        | some c => some c
        | none => base.postCreateCommand
      postStartCommand := match override.postStartCommand with
        | some c => some c
        | none => base.postStartCommand
      postAttachCommand := match override.postAttachCommand with
        | some c => some c
        | none => base.postAttachCommand }
  let basePost : DevContainer :=
    { base with containerEnv := envPair.2, nonComposeBase := ncbPair.2 }
  (result, basePost)

/-- Embedding of `MergeDevContainers` including the nil cases: a nil side returns the
other side. -/
def mergeDevContainers (base override : Option DevContainer) : Option DevContainer :=
  match base, override with
  | none, o => o
  | some b, none => some b
  | some b, some o => some (mergeDevContainersCore b o).1

/-- Embedding of `api.Mount`, the externally injected mount shape
(type/source/target/readOnly). -/
structure ApiMount where
  typ : String
  source : String
  target : String
  readOnly : Bool
deriving Repr, DecidableEq

/-- The object-style mount values `applyCustomMounts` builds from the
injected mounts. -/
def customMountObjs (customMounts : List ApiMount) : List JVal :=
  customMounts.map (fun m => JVal.obj
    [("type", JVal.str m.typ), ("source", JVal.str m.source),
     ("target", JVal.str m.target), ("readonly", JVal.bool m.readOnly)])

/-- One step of the loop that collects the injected targets to override:
an object-style custom mount contributes its `target` value when it is a
non-empty string. -/
def customTargetStep (acc : List String) (cm : JVal) : List String :=
  match cm with
  | JVal.obj m =>
    match jlookupStr m "target" with
    | some tgt => if tgt ≠ "" then acc ++ [tgt] else acc
    | none => acc
  | _ => acc

/-- One step of the loop that copies the declared mounts: an object-style
declared mount whose non-empty `target` is among the injected targets is
skipped; every other entry — including every string-style mount — is
kept. -/
def keepDeclaredStep (targets : List String) (acc : List JVal) (em : JVal) : List JVal :=
  match em with
  | JVal.obj mobj =>
    match jlookupStr mobj "target" with
    | some tgt => if tgt ≠ "" ∧ tgt ∈ targets then acc else acc ++ [em]
    | none => acc ++ [em]
  | _ => acc ++ [em]

/-- Embedding of `Manager.applyCustomMounts`: declared object-style mounts whose
non-empty `target` matches an injected target are skipped, everything else
(including every string-style mount) is kept in order, and the injected
mounts are appended; the workspace mount is cleared to `"none"` and a
default workspace folder is ensured. -/
def applyCustomMounts (customMounts : List ApiMount) (dc : DevContainer) : DevContainer :=
  let custom := customMountObjs customMounts
  let targets : List String := custom.foldl customTargetStep []
  let merged := dc.mounts.foldl (keepDeclaredStep targets) []
  { dc with
    mounts := merged ++ custom
    workspaceMount := "none"
    workspaceFolder := if dc.workspaceFolder = "" then "/workspace" else dc.workspaceFolder }

/-- Embedding of `filepath.Dir` (lexical; the `Clean` normalization is omitted — every
path fed to it in this development is already clean). -/
def pathDir (p : String) : String :=
  let r := p.data.reverse
  let afterBase := r.dropWhile (fun c => c ≠ '/')
  if afterBase = [] then "."
  else
    let r2 := afterBase.dropWhile (fun c => c = '/')
    if r2 = [] then "/" else ⟨r2.reverse⟩

/-- Embedding of `filepath.Join` of two elements (the `Clean` normalization is omitted —
every path fed to it in this development is already clean). -/
def pathJoin (a b : String) : String :=
  if a = "" then b else if b = "" then a else a ++ "/" ++ b

/-- The `extends`-reference resolution rules of
`LoadDevContainerWithExtends`: a `file://` prefix names a directory holding
`.devcontainer/devcontainer.json`; a `.json` suffix names the file directly
(absolute as-is, relative against the current document directory); any
other string names a directory holding `.devcontainer/devcontainer.json`. -/
def resolveExtendsPath (path extendsPath : String) : String :=
  if ("file://".data).isPrefixOf extendsPath.data then
    let baseDir : String := ⟨extendsPath.data.drop 7⟩
    pathJoin (pathJoin baseDir ".devcontainer") "devcontainer.json"
  else if (".json".data).isSuffixOf extendsPath.data then
    if ("/".data).isPrefixOf extendsPath.data then extendsPath
    else pathJoin (pathDir path) extendsPath
  else
    pathJoin (pathJoin (pathJoin (pathDir path) extendsPath) ".devcontainer")
      "devcontainer.json"

/-- A loadable document: the raw `extends` value when present as a string
(a non-string `extends` fails the type assertion and is ignored), and the
parsed descriptor. -/
structure RawDoc where
  extendsRef : Option String
  dc : DevContainer

/-- The failure of reading or parsing a document (`LoadError`). -/
inductive LoadErr where
  | loadFailed
deriving Repr, DecidableEq

/-- Embedding of `LoadDevContainerWithExtends`, embedded over an abstract filesystem
(`path ↦ parsed document`) with explicit fuel.  The Go function recurses on
the resolved `extends` path with no seen-path guard; `none` means the
recursion did not return within `fuel` nested calls, so a run that is
`none` for every fuel is one the source never finishes. -/
def loadDevContainerWithExtends (fs : String → Option RawDoc) :
    Nat → String → Option (Except LoadErr DevContainer)
  | 0, _ => none
  | Nat.succ fuel, path =>
    match fs path with
    | none => some (Except.error LoadErr.loadFailed)
    | some raw =>
      match raw.extendsRef with
      | none => some (Except.ok raw.dc)
      | some extendsPath =>
        let basePath := resolveExtendsPath path extendsPath
        match loadDevContainerWithExtends fs fuel basePath with
        | none => none
        | some (Except.error e) => some (Except.error e)
        | some (Except.ok baseDC) =>
          some (Except.ok (mergeDevContainersCore baseDC raw.dc).1)

/-- The default descriptor `Manager.Create` substitutes when loading
`<nodePath>/.devcontainer/devcontainer.json` fails: image `alpine:latest`
and workspace folder `/workspace`. -/
def defaultDevContainer : DevContainer :=
  { imageContainer := some "alpine:latest", workspaceFolder := "/workspace" }

/-- Embedding of `Manager.Create` up to the engine calls: descriptor selection
(pre-configured descriptor, else the load result, else the silent default),
custom-mount injection when configured, and the build of the run
configuration.  The load of the devcontainer document is the `loadResult`
parameter; image validation and container creation are engine collaborators
outside the core. -/
def createConfig (preConfigured : Option DevContainer)
    (loadResult : Except String DevContainer) (customMounts : List ApiMount)
    (env : String → Option String) (nodePath : String) :
    Except BuildErr DockerRunConfig :=
  let dc := match preConfigured with
    | some d => d
    | none =>
      match loadResult with
      | Except.ok d => d
      | Except.error _ => defaultDevContainer
  let dc := if customMounts ≠ [] then applyCustomMounts customMounts dc else dc
  buildDockerRunCommand env dc nodePath

/-! ## Specification-side characterizations and shared lemmas -/

/-- The empty host environment: no variable defined. -/
def hostEnvEmpty : String → Option String := fun _ => none

/-- First-occurrence de-duplication: append each element unless an equal
one was already emitted.  This is the spec characterization of both the
resolved port list and the aggregated missing-variable list. -/
def specDedupFirst (l : List String) : List String :=
  l.foldl (fun acc p => if p ∈ acc then acc else acc ++ [p]) []

/-- The spec-side port candidates, in the contract fixed precedence:
declared app-port(s), then the non-compose app-port override, then
forwarded ports. -/
def specPortSources (dc : DevContainer) : List String :=
  portCandidates dc.appPort parseAppPorts ++
  (portCandidates (dc.nonComposeBase.bind (fun n => n.appPort)) parseAppPorts ++
   portCandidates dc.forwardPorts parseForwardPorts)

theorem addPortsSeen_invariant (l : List String) :
    ∀ (acc seen : List String), (∀ x, x ∈ seen ↔ x ∈ acc) →
      (addPortsSeen (acc, seen) l).1 =
        l.foldl (fun a p => if p ∈ a then a else a ++ [p]) acc := by
  induction l with
  | nil => intro acc seen _; rfl
  | cons p rest ih =>
    intro acc seen h
    by_cases hp : p ∈ seen
    · have hacc : p ∈ acc := (h p).mp hp
      simp only [addPortsSeen, hp, if_pos, List.foldl_cons, hacc, if_true]
      exact ih acc seen h
    · have hacc : p ∉ acc := fun hc => hp ((h p).mpr hc)
      simp only [addPortsSeen, hp, if_false, List.foldl_cons, hacc, if_true]
      have hinv : ∀ x, x ∈ p :: seen ↔ x ∈ acc ++ [p] := by
        intro x
        simp [h x]
        tauto
      exact ih (acc ++ [p]) (p :: seen) hinv

theorem addPortsSeen_nil_state (l : List String) :
    (addPortsSeen ([], []) l).1 = specDedupFirst l :=
  addPortsSeen_invariant l [] [] (by simp)

theorem addPortsSeen_append (l1 l2 : List String) :
    ∀ st : List String × List String,
      addPortsSeen st (l1 ++ l2) = addPortsSeen (addPortsSeen st l1) l2 := by
  induction l1 with
  | nil => intro st; rfl
  | cons p rest ih =>
    intro st
    obtain ⟨acc, seen⟩ := st
    by_cases hp : p ∈ seen
    · simp only [List.cons_append, addPortsSeen, hp, if_pos]
      exact ih _
    · simp only [List.cons_append, addPortsSeen, hp, if_false]
      exact ih _

/-- The three seen-set port loops of the synthesizer compute exactly the
first-occurrence de-duplication of the concatenated candidate lists. -/
theorem buildPorts_eq_spec (dc : DevContainer) :
    buildPorts dc = specDedupFirst (specPortSources dc) := by
  simp only [buildPorts, specPortSources]
  rw [← addPortsSeen_append, ← addPortsSeen_append, addPortsSeen_nil_state]

/-- Variable expansion touches no port-bearing field. -/
theorem specPortSources_expand (env : String → Option String) (dc : DevContainer)
    (ws : String) :
    specPortSources (expandedDC env dc ws) = specPortSources dc := by
  unfold specPortSources expandedDC expandVariables
  cases dc.nonComposeBase <;> rfl

theorem build_ok_ports (env : String → Option String) (dc : DevContainer) (ws : String)
    (cfg : DockerRunConfig) (h : buildDockerRunCommand env dc ws = Except.ok cfg) :
    cfg.ports = buildPorts (resolvedDC env dc ws) := by
  simp only [buildDockerRunCommand] at h
  split at h
  · simp at h
  · split at h
    · simp at h
    · rw [Except.ok.injEq] at h
      subst h
      rfl

/-- C5. The invocation plan port list collects declared app-port(s)
first, then the non-compose app-port override, then forwarded ports,
normalizing each entry (bare number `N` ↦ `"N:N"`, strings pass through)
and appending it only when its normalized string was not already emitted:
the list equals the first-occurrence de-duplication of the concatenated
candidate lists, so first occurrence wins and later duplicates are
dropped. -/
theorem c5_ports_first_occurrence (env : String → Option String) (dc : DevContainer)
    (ws : String) (cfg : DockerRunConfig)
    (h : buildDockerRunCommand env dc ws = Except.ok cfg) :
    cfg.ports = specDedupFirst (specPortSources dc) := by
  rw [build_ok_ports env dc ws cfg h, buildPorts_eq_spec]
  have h1 : specPortSources (resolvedDC env dc ws) = specPortSources (expandedDC env dc ws) := rfl
  rw [h1, specPortSources_expand]

/-- The spec port-de-duplication example: app-ports `[5000]`,
forward-ports `[5000, 8080]`. -/
def portExampleDC : DevContainer :=
  { image := "img"
    appPort := some (JVal.arr [JVal.num 5000])
    forwardPorts := some (JVal.arr [JVal.num 5000, JVal.num 8080]) }

/-- The invocation plan the synthesizer produces for `portExampleDC`
against workspace root `/ws`. -/
def portExampleConfig : DockerRunConfig :=
  { image := "img"
    workspaceMount := "type=bind,source=/ws,target=/workspaces/ws"
    workspaceFolder := "/workspaces/ws"
    ports := ["5000:5000", "8080:8080"] }

/-- Witness for C5: on app-ports `[5000]` and forward-ports `[5000, 8080]`
the build succeeds and the resolved port list is exactly
`["5000:5000", "8080:8080"]`. -/
theorem c5_ports_first_occurrence_witness :
    buildDockerRunCommand hostEnvEmpty portExampleDC "/ws" = Except.ok portExampleConfig ∧
    portExampleConfig.ports = ["5000:5000", "8080:8080"] := by
  have hb : buildDockerRunCommand hostEnvEmpty portExampleDC "/ws" =
      Except.ok portExampleConfig := by rfl
  refine ⟨hb, ?_⟩
  have h := c5_ports_first_occurrence hostEnvEmpty portExampleDC "/ws" portExampleConfig hb
  rw [h]
  rfl

theorem uniqueAux_eq_foldl (l : List String) :
    ∀ (seen acc : List String), (∀ x, x ∈ seen ↔ x ∈ acc) →
      acc ++ uniqueAux seen l =
        l.foldl (fun a p => if p ∈ a then a else a ++ [p]) acc := by
  induction l with
  | nil => intro seen acc _; simp [uniqueAux]
  | cons s rest ih =>
    intro seen acc h
    by_cases hs : s ∈ seen
    · have hacc : s ∈ acc := (h s).mp hs
      simp only [uniqueAux, hs, if_pos, List.foldl_cons, hacc, if_true]
      exact ih seen acc h
    · have hacc : s ∉ acc := fun hc => hs ((h s).mpr hc)
      simp only [uniqueAux, hs, if_false, List.foldl_cons, hacc, if_true]
      have hstep : acc ++ s :: uniqueAux (s :: seen) rest =
          (acc ++ [s]) ++ uniqueAux (s :: seen) rest := by simp
      rw [hstep]
      refine ih (s :: seen) (acc ++ [s]) ?_
      intro x
      simp [h x]
      tauto

theorem uniqueStrings_eq_spec (l : List String) :
    uniqueStrings l = specDedupFirst l := by
  have h := uniqueAux_eq_foldl l [] [] (by simp)
  simpa [uniqueStrings, specDedupFirst] using h

theorem uniqueAux_mem (l : List String) :
    ∀ (seen : List String) (x : String),
      x ∈ uniqueAux seen l ↔ (x ∈ l ∧ x ∉ seen) := by
  induction l with
  | nil => intro seen x; simp [uniqueAux]
  | cons s rest ih =>
    intro seen x
    by_cases hs : s ∈ seen
    · simp only [uniqueAux, hs, if_pos, ih, List.mem_cons]
      constructor
      · exact fun h => ⟨Or.inr h.1, h.2⟩
      · rintro ⟨h1 | h1, h2⟩
        · exact absurd (h1 ▸ hs) h2
        · exact ⟨h1, h2⟩
    · simp only [uniqueAux, hs, if_false, List.mem_cons, ih]
      constructor
      · rintro (h1 | ⟨h1, h2⟩)
        · exact ⟨Or.inl h1, h1 ▸ hs⟩
        · exact ⟨Or.inr h1, fun hc => h2 (Or.inr hc)⟩
      · rintro ⟨h1 | h1, h2⟩
        · exact Or.inl h1
        · by_cases hx : x = s
          · exact Or.inl hx
          · exact Or.inr ⟨h1, fun hc => hc.elim hx h2⟩

theorem uniqueAux_nodup (l : List String) :
    ∀ seen : List String, (uniqueAux seen l).Nodup := by
  induction l with
  | nil => intro seen; simp [uniqueAux]
  | cons s rest ih =>
    intro seen
    by_cases hs : s ∈ seen
    · simpa only [uniqueAux, hs, if_pos] using ih seen
    · simp only [uniqueAux, hs, if_false, List.nodup_cons]
      refine ⟨?_, ih (s :: seen)⟩
      intro hc
      have := (uniqueAux_mem rest (s :: seen) s).mp hc
      exact this.2 (List.mem_cons_self s seen)

theorem uniqueAux_sublist (l : List String) :
    ∀ seen : List String, List.Sublist (uniqueAux seen l) l := by
  induction l with
  | nil => intro seen; simp [uniqueAux]
  | cons s rest ih =>
    intro seen
    by_cases hs : s ∈ seen
    · simp only [uniqueAux, hs, if_pos]
      exact List.Sublist.cons s (ih seen)
    · simp only [uniqueAux, hs, if_false]
      exact List.Sublist.cons₂ s (ih (s :: seen))

/-- C2 (amended). The `${localEnv:...}` missing names that fail the
build are collected only across the mounts (string mounts as a whole,
structured mounts `source` then `target`), in mount order; when that
aggregate is non-empty the whole build fails with one error carrying the
de-duplicated, first-occurrence-ordered name list.  (Missing references in
any other expanded field — environment values, lifecycle hooks, workspace
strings — are left unresolved without failing; see the counterexample.) -/
theorem c2_missing_vars_aggregated (env : String → Option String) (dc : DevContainer)
    (ws : String) (missing : List String)
    (hm : missing = buildMissing env dc ws) (hne : missing ≠ []) :
    buildDockerRunCommand env dc ws =
      Except.error (BuildErr.unresolvedVariables (uniqueStrings missing)) ∧
    uniqueStrings missing = specDedupFirst missing ∧
    (uniqueStrings missing).Nodup ∧
    List.Sublist (uniqueStrings missing) missing ∧
    (∀ n, n ∈ uniqueStrings missing ↔ n ∈ missing) := by
  refine ⟨?_, uniqueStrings_eq_spec missing, uniqueAux_nodup missing [],
    uniqueAux_sublist missing [], ?_⟩
  · simp only [buildDockerRunCommand]
    rw [← hm, if_pos hne]
  · intro n
    have h := uniqueAux_mem missing [] n
    simpa [uniqueStrings] using h

/-- A descriptor whose only `${localEnv:NOPE}` reference sits in an
environment value, not in a mount. -/
def envRefOnlyDC : DevContainer :=
  { image := "alpine", containerEnv := some [("X", "$\x7blocalEnv:NOPE\x7d")] }

/-- C2 (counterexample). The claim says a `${localEnv:NOPE}` reference
with no host value and no default makes the build fail wherever it
appears, the missing names being collected "across all mounts and across
every other expanded string field".  On the code, a missing reference that
appears only in an environment value does not fail the build at all: the
build succeeds and the unresolved token is passed through into the plan
environment (`expandVariableString` discards the missing-name list). -/
theorem c2_counterexample :
    buildDockerRunCommand hostEnvEmpty envRefOnlyDC "/ws" =
      Except.ok
        { image := "alpine"
          workspaceFolder := "/workspaces/ws"
          workspaceMount := "type=bind,source=/ws,target=/workspaces/ws"
          environment := [("X", "$\x7blocalEnv:NOPE\x7d")] } := by rfl

/-- A descriptor in which `${localEnv:NOPE}` is missing in two different
mounts (a string mount and a structured mount source). -/
def mountMissingDC : DevContainer :=
  { image := "img"
    mounts := [JVal.str "type=bind,source=$\x7blocalEnv:NOPE\x7d,target=/a",
               JVal.obj [("type", JVal.str "bind"),
                         ("source", JVal.str "$\x7blocalEnv:NOPE\x7d"),
                         ("target", JVal.str "/b")]] }

/-- Witness for C2 (amended): `NOPE` missing in two mounts fails the build
once, listing `NOPE` exactly once. -/
theorem c2_missing_vars_aggregated_witness :
    buildDockerRunCommand hostEnvEmpty mountMissingDC "/ws" =
      Except.error (BuildErr.unresolvedVariables ["NOPE"]) := by
  have h := c2_missing_vars_aggregated hostEnvEmpty mountMissingDC "/ws"
    ["NOPE", "NOPE"] (by rfl) (by decide)
  exact h.1

/-- The spec-side rendering of one mount entry into the plan mount list:
a string mount verbatim, an object mount through the canonical builder
(dropped in the vacuous case of an empty rendering), anything else
dropped. -/
def specMountRender : JVal → Option String
  | JVal.str s => some s
  | JVal.obj m =>
    let t := buildMountStringFromMap m
    if t = "" then none else some t
  | _ => none

theorem mountFoldStep_filterMap (l : List JVal) :
    ∀ acc : List String,
      l.foldl mountFoldStep acc = acc ++ l.filterMap specMountRender := by
  induction l with
  | nil => intro acc; simp
  | cons x rest ih =>
    intro acc
    cases x with
    | str s => simp [List.foldl_cons, mountFoldStep, specMountRender, ih]
    | obj m =>
      by_cases hm : buildMountStringFromMap m = ""
      · simp [List.foldl_cons, mountFoldStep, specMountRender, hm, ih]
      · simp [List.foldl_cons, mountFoldStep, specMountRender, hm, ih]
    | num n => simp [List.foldl_cons, mountFoldStep, specMountRender, ih]
    | bool b => simp [List.foldl_cons, mountFoldStep, specMountRender, ih]
    | arr xs => simp [List.foldl_cons, mountFoldStep, specMountRender, ih]

theorem buildMounts_eq_filterMap (mounts : List JVal) :
    buildMounts mounts = mounts.filterMap specMountRender := by
  have h := mountFoldStep_filterMap mounts []
  simpa [buildMounts] using h

theorem build_ok_mounts (env : String → Option String) (dc : DevContainer) (ws : String)
    (cfg : DockerRunConfig) (h : buildDockerRunCommand env dc ws = Except.ok cfg) :
    cfg.mounts = buildMounts (resolvedDC env dc ws).mounts := by
  simp only [buildDockerRunCommand] at h
  split at h
  · simp at h
  · split at h
    · simp at h
    · rw [Except.ok.injEq] at h
      subst h
      rfl

/-- C4 (amended). Every mount entry of the (expanded, resolved)
descriptor reaches the plan mount list as follows: a structured map is
canonicalized by `buildMountStringFromMap` to
`type=<k>[,source=<s>][,target=<t>][,readonly]` (type defaulting to
`bind`); a comma-joined string mount is passed through verbatim, NOT
canonicalized; non-string non-map entries are dropped. -/
theorem c4_mount_rendering (env : String → Option String) (dc : DevContainer)
    (ws : String) (cfg : DockerRunConfig)
    (h : buildDockerRunCommand env dc ws = Except.ok cfg) :
    cfg.mounts = (resolvedDC env dc ws).mounts.filterMap specMountRender := by
  rw [build_ok_mounts env dc ws cfg h, buildMounts_eq_filterMap]

/-- A descriptor declaring one string mount and one structured mount. -/
def mountsExampleDC : DevContainer :=
  { image := "img"
    mounts := [JVal.str "type=volume,source=vol1,target=/v",
               JVal.obj [("type", JVal.str "volume"), ("source", JVal.str "cache"),
                         ("target", JVal.str "/cache"), ("readonly", JVal.bool true)]] }

/-- The plan built from `mountsExampleDC` against `/ws`. -/
def mountsExampleConfig : DockerRunConfig :=
  { image := "img"
    workspaceMount := "type=bind,source=/ws,target=/workspaces/ws"
    workspaceFolder := "/workspaces/ws"
    mounts := ["type=volume,source=vol1,target=/v",
               "type=volume,source=cache,target=/cache,readonly"] }

/-- Witness for C4 (amended): a structured mount is canonicalized (with
`readonly` appended) and a string mount passes through, in declaration
order. -/
theorem c4_mount_rendering_witness :
    buildDockerRunCommand hostEnvEmpty mountsExampleDC "/ws" =
      Except.ok mountsExampleConfig ∧
    mountsExampleConfig.mounts =
      ["type=volume,source=vol1,target=/v",
       "type=volume,source=cache,target=/cache,readonly"] := by
  have hb : buildDockerRunCommand hostEnvEmpty mountsExampleDC "/ws" =
      Except.ok mountsExampleConfig := by rfl
  refine ⟨hb, ?_⟩
  have h := c4_mount_rendering hostEnvEmpty mountsExampleDC "/ws" mountsExampleConfig hb
  rw [h]
  rfl

/-- A descriptor whose only mount is a string mount written in a
non-canonical key order. -/
def stringMountDC : DevContainer :=
  { image := "img", mounts := [JVal.str "target=/b,type=bind"] }

/-- The canonical textual mount form of the spec, as character data:
`type=<k>[,source=<s>],target=<t>[,readonly]`. -/
def specCanonicalMountData (k : String) (s : Option String) (t : String) (ro : Bool) :
    List Char :=
  "type=".data ++ k.data ++
  (match s with
   | some sv => ",source=".data ++ sv.data
   | none => []) ++
  ",target=".data ++ t.data ++
  (if ro then ",readonly".data else [])

/-- C4 (counterexample). The claim says every mount entry, string
mounts included, appears in the plan in the canonical form
`type=<k>[,source=<s>],target=<t>[,readonly]`.  On the code, the string
mount `"target=/b,type=bind"` is passed through verbatim, and no
instantiation of the canonical form equals it (every canonical string
starts with the characters `type=`). -/
theorem c4_counterexample :
    buildDockerRunCommand hostEnvEmpty stringMountDC "/ws" =
      Except.ok
        { image := "img"
          workspaceMount := "type=bind,source=/ws,target=/workspaces/ws"
          workspaceFolder := "/workspaces/ws"
          mounts := ["target=/b,type=bind"] } ∧
    (∀ (k t : String) (s : Option String) (ro : Bool),
      specCanonicalMountData k s t ro ≠ ("target=/b,type=bind" : String).data) := by
  refine ⟨by rfl, ?_⟩
  intro k t s ro h
  have h1 : (specCanonicalMountData k s t ro)[1]? = some 'y' := by
    cases s <;> cases ro <;> rfl
  rw [h] at h1
  exact absurd h1 (by decide)

/-- The spec-side keep predicate for mount injection: an object-style
declared mount is dropped exactly when its `target` is a non-empty string
among the injected targets; string-style and other entries are always
kept. -/
def specKeepDeclared (targets : List String) (e : JVal) : Bool :=
  match e with
  | JVal.obj m =>
    match jlookupStr m "target" with
    | some tgt => if tgt ≠ "" ∧ tgt ∈ targets then false else true
    | none => true
  | _ => true

/-- The injected targets that participate in override-by-target: the
non-empty target strings of the injected mounts, in order. -/
def specInjectedTargets (customMounts : List ApiMount) : List String :=
  (customMounts.map (fun m => m.target)).filter (fun t => t ≠ "")

theorem customTargets_spec (cms : List ApiMount) :
    ∀ acc : List String,
      (customMountObjs cms).foldl customTargetStep acc =
        acc ++ specInjectedTargets cms := by
  induction cms with
  | nil => intro acc; simp [customMountObjs, specInjectedTargets]
  | cons m rest ih =>
    intro acc
    have hobjs : customMountObjs (m :: rest) =
        JVal.obj [("type", JVal.str m.typ), ("source", JVal.str m.source),
          ("target", JVal.str m.target), ("readonly", JVal.bool m.readOnly)] ::
          customMountObjs rest := rfl
    have hstep : customTargetStep acc (JVal.obj
        [("type", JVal.str m.typ), ("source", JVal.str m.source),
         ("target", JVal.str m.target), ("readonly", JVal.bool m.readOnly)]) =
        if m.target ≠ "" then acc ++ [m.target] else acc := by rfl
    rw [hobjs, List.foldl_cons, hstep]
    by_cases ht : m.target = ""
    · rw [if_neg (not_not_intro ht), ih]
      have hsp : specInjectedTargets (m :: rest) = specInjectedTargets rest := by
        simp [specInjectedTargets, List.filter_cons, ht]
      rw [hsp]
    · rw [if_pos ht, ih]
      have hsp : specInjectedTargets (m :: rest) =
          m.target :: specInjectedTargets rest := by
        simp [specInjectedTargets, List.filter_cons, ht]
      rw [hsp]
      simp

theorem keepDeclared_filter (targets : List String) (l : List JVal) :
    ∀ acc : List JVal,
      l.foldl (keepDeclaredStep targets) acc =
        acc ++ l.filter (specKeepDeclared targets) := by
  induction l with
  | nil => intro acc; simp
  | cons x rest ih =>
    intro acc
    cases x with
    | obj m =>
      cases hjt : jlookupStr m "target" with
      | some tgt =>
        by_cases hc : tgt ≠ "" ∧ tgt ∈ targets
        · simp [List.foldl_cons, keepDeclaredStep, specKeepDeclared, hjt, hc, ih,
            List.filter_cons]
        · simp [List.foldl_cons, keepDeclaredStep, specKeepDeclared, hjt, hc, ih,
            List.filter_cons]
      | none =>
        simp [List.foldl_cons, keepDeclaredStep, specKeepDeclared, hjt, ih,
          List.filter_cons]
    | str s => simp [List.foldl_cons, keepDeclaredStep, specKeepDeclared, ih,
        List.filter_cons]
    | num n => simp [List.foldl_cons, keepDeclaredStep, specKeepDeclared, ih,
        List.filter_cons]
    | bool b => simp [List.foldl_cons, keepDeclaredStep, specKeepDeclared, ih,
        List.filter_cons]
    | arr xs => simp [List.foldl_cons, keepDeclaredStep, specKeepDeclared, ih,
        List.filter_cons]

/-- C3 (amended). Mount injection keeps every declared mount that is
not an object-style mount with a non-empty `target` among the injected
targets — in particular every string-style declared mount is kept even
when its target coincides — preserving the declared order, and appends all
injected mounts after them. -/
theorem c3_mount_injection (customMounts : List ApiMount) (dc : DevContainer) :
    (applyCustomMounts customMounts dc).mounts =
      dc.mounts.filter (specKeepDeclared (specInjectedTargets customMounts)) ++
        customMountObjs customMounts := by
  simp only [applyCustomMounts]
  rw [customTargets_spec, keepDeclared_filter]
  simp

/-- A descriptor declaring a single string-style mount that targets
`/data`. -/
def c3DeclaredDC : DevContainer :=
  { image := "img", mounts := [JVal.str "type=bind,source=/x,target=/data"] }

/-- One injected mount targeting `/data`. -/
def c3Injected : List ApiMount :=
  [{ typ := "bind", source := "/injected", target := "/data", readOnly := false }]

/-- C3 (counterexample). The claim says any declared mount, string or
structured, whose canonical target matches an injected target is removed,
so a declared `/data` mount plus an injected `/data` mount leave exactly
one `/data` entry.  On the code, a string-style declared mount is never
removed: the resolved list keeps the declared string mount targeting
`/data` and appends the injected `/data` mount — two `/data` entries. -/
theorem c3_counterexample :
    (applyCustomMounts c3Injected c3DeclaredDC).mounts =
      [JVal.str "type=bind,source=/x,target=/data",
       JVal.obj [("type", JVal.str "bind"), ("source", JVal.str "/injected"),
                 ("target", JVal.str "/data"), ("readonly", JVal.bool false)]] := by rfl

/-! ### C7: fixed order of the emitted argument vector -/

/-- The `--name` group: omitted when the name is empty. -/
def nameFlags (c : DockerRunConfig) : List String :=
  if c.name ≠ "" then ["--name", c.name] else []

/-- The workspace-mount group: omitted when empty or `"none"`. -/
def workspaceMountFlags (c : DockerRunConfig) : List String :=
  if c.workspaceMount ≠ "" ∧ c.workspaceMount ≠ "none" then
    ["-v", c.workspaceMount] else []

/-- The working-directory group: omitted when empty. -/
def workdirFlags (c : DockerRunConfig) : List String :=
  if c.workspaceFolder ≠ "" then ["-w", c.workspaceFolder] else []

/-- The environment group: one `-e k=v` pair per entry. -/
def envFlags (c : DockerRunConfig) : List String :=
  c.environment.flatMap (fun kv => ["-e", kv.1 ++ "=" ++ kv.2])

/-- The port group: one `-p` pair per entry. -/
def portFlags (c : DockerRunConfig) : List String :=
  c.ports.flatMap (fun p => ["-p", p])

/-- The mount group: one `--mount` pair per entry. -/
def mountFlags (c : DockerRunConfig) : List String :=
  c.mounts.flatMap (fun m => ["--mount", m])

/-- The capability group, with the `Capabilities` fallback when `CapAdd`
is empty. -/
def capFlags (c : DockerRunConfig) : List String :=
  (if c.capAdd = [] ∧ c.capabilities ≠ [] then c.capabilities else c.capAdd).flatMap
    (fun x => ["--cap-add", x])

/-- The security-opt group, with the `SecurityOpts` fallback when
`SecurityOpt` is empty. -/
def securityOptFlags (c : DockerRunConfig) : List String :=
  (if c.securityOpt = [] ∧ c.securityOpts ≠ [] then c.securityOpts
   else c.securityOpt).flatMap (fun x => ["--security-opt", x])

/-- The `--init` group: omitted when false. -/
def initFlags (c : DockerRunConfig) : List String :=
  if c.init then ["--init"] else []

/-- The `--privileged` group: omitted when false. -/
def privilegedFlags (c : DockerRunConfig) : List String :=
  if c.privileged then ["--privileged"] else []

/-- The user group: omitted when empty. -/
def userFlags (c : DockerRunConfig) : List String :=
  if c.user ≠ "" then ["-u", c.user] else []

theorem appendEach_eq {β : Type} (f : β → List String) (l : List β) :
    ∀ acc : List String, appendEach acc f l = acc ++ l.flatMap f := by
  induction l with
  | nil => intro acc; simp [appendEach]
  | cons x rest ih =>
    intro acc
    have hstep : appendEach acc f (x :: rest) = appendEach (acc ++ f x) f rest := rfl
    rw [hstep, ih]
    simp

theorem ite_append_push (p : Prop) [Decidable p] (a x : List String) :
    (if p then a ++ x else a) = a ++ (if p then x else []) := by
  split <;> simp

/-- C7. `ToDockerRunArgs` emits the argument vector in the fixed order
base flags, name, workspace mount, working directory, environment flags
(one per entry), port flags, extra run-args, mount flags, capability
flags, security-opt flags, init flag, privileged flag, user flag, image,
trailing command tokens — each optional group omitted when its field is
empty or false (the workspace mount also when `"none"`). -/
theorem c7_arg_vector_order (c : DockerRunConfig) :
    toDockerRunArgs c =
      ["run", "--rm", "-it"] ++ nameFlags c ++ workspaceMountFlags c ++
      workdirFlags c ++ envFlags c ++ portFlags c ++ c.runArgs ++ mountFlags c ++
      capFlags c ++ securityOptFlags c ++ initFlags c ++ privilegedFlags c ++
      userFlags c ++ [c.image] ++ c.command := by
  simp only [toDockerRunArgs, appendEach_eq, ite_append_push]
  simp only [nameFlags, workspaceMountFlags, workdirFlags, envFlags, portFlags,
    mountFlags, capFlags, securityOptFlags, initFlags, privilegedFlags, userFlags,
    List.append_assoc]

/-! ### C1: merge override precedence -/

/-- A base descriptor with a non-empty workspace folder. -/
def c1BaseDC : DevContainer := { image := "base-img", workspaceFolder := "/a" }

/-- An override descriptor that also sets the workspace folder. -/
def c1OverrideDC : DevContainer := { image := "override-img", workspaceFolder := "/b" }

/-- C1 (counterexample). The claim quantifies over every scalar
field (string, bool, or selector pointer).  `workspaceFolder` is a scalar
string field set non-empty in both inputs, yet the merge result keeps
base `/a` instead of override `/b`: `MergeDevContainers` never touches
that field (nor `workspaceMount`, `containerUser`, `init`, `privileged`,
or the top-level `appPort`). -/
theorem c1_counterexample :
    c1BaseDC.workspaceFolder = "/a" ∧ c1OverrideDC.workspaceFolder = "/b" ∧
    (mergeDevContainersCore c1BaseDC c1OverrideDC).1.workspaceFolder = "/a" :=
  ⟨rfl, rfl, rfl⟩

/-- C1 (amended). Override precedence holds exactly for the fields the
merge handles: the scalars `image` (when override is non-empty),
`imageContainer` and `name` (when override pointer is set), and the list
fields `forwardPorts` (when present), `capAdd`, `securityOpt` and `mounts`
(when override list is non-empty) — each list replaced wholesale by
override list, never unioned.  Every other scalar or list field
(`workspaceFolder`, `workspaceMount`, `containerUser`, `init`,
`privileged`, the top-level `appPort`, the dockerfile selector) keeps
base value regardless of override. -/
theorem c1_override_precedence (b o : DevContainer) :
    ((o.image ≠ "" → (mergeDevContainersCore b o).1.image = o.image) ∧
     (o.imageContainer.isSome →
       (mergeDevContainersCore b o).1.imageContainer = o.imageContainer) ∧
     (o.name.isSome → (mergeDevContainersCore b o).1.name = o.name) ∧
     (o.forwardPorts.isSome →
       (mergeDevContainersCore b o).1.forwardPorts = o.forwardPorts) ∧
     (o.capAdd ≠ [] → (mergeDevContainersCore b o).1.capAdd = o.capAdd) ∧
     (o.securityOpt ≠ [] →
       (mergeDevContainersCore b o).1.securityOpt = o.securityOpt) ∧
     (o.mounts.isEmpty = false → (mergeDevContainersCore b o).1.mounts = o.mounts)) ∧
    ((mergeDevContainersCore b o).1.workspaceFolder = b.workspaceFolder ∧
     (mergeDevContainersCore b o).1.workspaceMount = b.workspaceMount ∧
     (mergeDevContainersCore b o).1.containerUser = b.containerUser ∧
     (mergeDevContainersCore b o).1.init = b.init ∧
     (mergeDevContainersCore b o).1.privileged = b.privileged ∧
     (mergeDevContainersCore b o).1.appPort = b.appPort ∧
     (mergeDevContainersCore b o).1.dockerfileContainer = b.dockerfileContainer) := by
  constructor
  · refine ⟨?_, ?_, ?_, ?_, ?_, ?_, ?_⟩
    · intro h
      simp [mergeDevContainersCore, h]
    · intro h
      rcases ho : o.imageContainer with _ | i
      · rw [ho] at h; simp at h
      · simp [mergeDevContainersCore, ho]
    · intro h
      rcases ho : o.name with _ | n
      · rw [ho] at h; simp at h
      · simp [mergeDevContainersCore, ho]
    · intro h
      rcases ho : o.forwardPorts with _ | f
      · rw [ho] at h; simp at h
      · simp [mergeDevContainersCore, ho]
    · intro h
      simp [mergeDevContainersCore, h]
    · intro h
      simp [mergeDevContainersCore, h]
    · intro h
      simp [mergeDevContainersCore, h]
  · exact ⟨rfl, rfl, rfl, rfl, rfl, rfl, rfl⟩

/-- A concrete base for the C1 witness. -/
def c1WitnessBase : DevContainer :=
  { image := "node:16", workspaceFolder := "/a", capAdd := ["SYS_PTRACE"],
    securityOpt := ["a=b"], mounts := [JVal.str "type=volume,source=b,target=/b"] }

/-- A concrete override for the C1 witness. -/
def c1WitnessOverride : DevContainer :=
  { image := "node:18", imageContainer := some "node:18", name := some "ov",
    forwardPorts := some (JVal.arr [JVal.num 3000]), capAdd := ["NET_ADMIN"],
    securityOpt := ["seccomp=unconfined"],
    mounts := [JVal.str "type=volume,source=v,target=/v"] }

/-- Witness for C1 (amended): every handled field takes override value
wholesale, and an unhandled scalar keeps the base value. -/
theorem c1_override_precedence_witness :
    (mergeDevContainersCore c1WitnessBase c1WitnessOverride).1.image = "node:18" ∧
    (mergeDevContainersCore c1WitnessBase c1WitnessOverride).1.capAdd = ["NET_ADMIN"] ∧
    (mergeDevContainersCore c1WitnessBase c1WitnessOverride).1.securityOpt =
      ["seccomp=unconfined"] ∧
    (mergeDevContainersCore c1WitnessBase c1WitnessOverride).1.mounts =
      [JVal.str "type=volume,source=v,target=/v"] ∧
    (mergeDevContainersCore c1WitnessBase c1WitnessOverride).1.workspaceFolder = "/a" := by
  have h := c1_override_precedence c1WitnessBase c1WitnessOverride
  refine ⟨h.1.1 (by decide), h.1.2.2.2.2.1 (by decide), h.1.2.2.2.2.2.1 (by decide),
    ?_, ?_⟩
  · rw [h.1.2.2.2.2.2.2 (by rfl)]
    rfl
  · rw [h.2.1]
    rfl

/-! ### C6: the merge mutates its base input -/

/-- A base descriptor with a non-nil environment map and a non-nil
`NonComposeBase` carrying run-args. -/
def c6BaseDC : DevContainer :=
  { containerEnv := some [("A", "base")],
    nonComposeBase := some { runArgs := some ["--network", "bridge"] } }

/-- An override descriptor with a non-empty environment map and a non-nil
`NonComposeBase` with nil run-args. -/
def c6OverrideDC : DevContainer :=
  { containerEnv := some [("A", "ov"), ("NEW", "n")], nonComposeBase := some {} }

/-- C6 (code bug). `MergeDevContainers` starts with `result := *base`,
a shallow copy, although its own comment says "Deep copy base": `result`
shares base `ContainerEnv` map and `NonComposeBase` pointer, so the
merge writes `result.ContainerEnv[k] = v` and
`result.NonComposeBase.RunArgs = override...RunArgs` are visible through
`base` after the call.  At this input, base environment entry `A` has
become override value, a new key `NEW` has appeared in base map, and
base run-args have been overwritten to nil — the merge mutated its
input, and the mutated storage is exactly the one the result aliases. -/
theorem c6_merge_mutates_base :
    c6BaseDC.containerEnv = some [("A", "base")] ∧
    (mergeDevContainersCore c6BaseDC c6OverrideDC).2.containerEnv =
      some [("A", "ov"), ("NEW", "n")] ∧
    c6BaseDC.nonComposeBase = some { runArgs := some ["--network", "bridge"] } ∧
    (mergeDevContainersCore c6BaseDC c6OverrideDC).2.nonComposeBase =
      some { runArgs := none } ∧
    (mergeDevContainersCore c6BaseDC c6OverrideDC).1.containerEnv =
      (mergeDevContainersCore c6BaseDC c6OverrideDC).2.containerEnv :=
  ⟨rfl, rfl, rfl, rfl, rfl⟩

/-! ### Strings without `$` are fixed points of variable expansion -/

theorem listReplaceAllAux_no_dollar (pat rep : List Char) (hpat : pat.head? = some '$') :
    ∀ (fuel : Nat) (l : List Char), '$' ∉ l → listReplaceAllAux pat rep fuel l = l := by
  intro fuel
  induction fuel with
  | zero => intro l _; rfl
  | succ n ih =>
    intro l hl
    cases l with
    | nil => rfl
    | cons c rest =>
      have hc : c ≠ '$' := fun h => hl (by rw [h]; exact List.mem_cons_self _ _)
      have hnot : ¬(pat ≠ [] ∧ pat.isPrefixOf (c :: rest)) := by
        rintro ⟨hne, hpre⟩
        cases pat with
        | nil => exact hne rfl
        | cons p ps =>
          have hp : p = '$' := by simpa using hpat
          have hpc : p = c ∧ ps.isPrefixOf rest := by
            simpa [List.isPrefixOf] using hpre
          exact hc (hpc.1.symm.trans hp)
      simp only [listReplaceAllAux, if_neg hnot]
      rw [ih rest (fun h => hl (List.mem_cons_of_mem _ h))]

theorem resolveLocalEnvAux_no_dollar (env : String → Option String) :
    ∀ (fuel : Nat) (l : List Char), '$' ∉ l →
      resolveLocalEnvAux env fuel l = (l, []) := by
  intro fuel
  induction fuel with
  | zero => intro l _; rfl
  | succ n ih =>
    intro l hl
    cases l with
    | nil => rfl
    | cons c rest =>
      have hc : c ≠ '$' := fun h => hl (by rw [h]; exact List.mem_cons_self _ _)
      have hbe : ('$' == c) = false := beq_eq_false_iff_ne.mpr (Ne.symm hc)
      have hm : matchLocalEnv (c :: rest) = none := by
        have hd : "$\x7blocalEnv:".data = '$' :: "\x7blocalEnv:".data := rfl
        have hpre : ("$\x7blocalEnv:".data).isPrefixOf (c :: rest) = false := by
          rw [hd]
          simp [List.isPrefixOf, hbe]
        simp [matchLocalEnv, hpre]
      simp only [resolveLocalEnvAux, hm]
      rw [ih rest (fun h => hl (List.mem_cons_of_mem _ h))]

theorem strData_append (a b : String) : (a ++ b).data = a.data ++ b.data := by
  cases a
  cases b
  rfl

theorem braceVar_head (k : String) :
    ("$\x7b" ++ k ++ "\x7d").data.head? = some '$' := by
  rw [strData_append, strData_append]
  rfl

theorem dollarVar_head (k : String) : ("$" ++ k).data.head? = some '$' := by
  rw [strData_append]
  rfl

theorem strReplaceAll_no_dollar (s pat rep : String) (hpat : pat.data.head? = some '$')
    (hs : '$' ∉ s.data) : strReplaceAll s pat rep = s := by
  unfold strReplaceAll listReplaceAll
  rw [listReplaceAllAux_no_dollar pat.data rep.data hpat s.data.length s.data hs]

theorem expandVariableString_no_dollar (env : String → Option String)
    (vars : List (String × String)) (s : String) (hs : '$' ∉ s.data) :
    expandVariableString env vars s = s := by
  unfold expandVariableString
  have hfold : vars.foldl (fun acc kv =>
      strReplaceAll (strReplaceAll acc ("$\x7b" ++ kv.1 ++ "\x7d") kv.2)
        ("$" ++ kv.1) kv.2) s = s := by
    induction vars with
    | nil => rfl
    | cons kv rest ih =>
      rw [List.foldl_cons,
        strReplaceAll_no_dollar s _ _ (braceVar_head kv.1) hs,
        strReplaceAll_no_dollar s _ _ (dollarVar_head kv.1) hs, ih]
  rw [hfold]
  show (⟨(resolveLocalEnvAux env s.data.length s.data).1⟩ : String) = s
  rw [resolveLocalEnvAux_no_dollar env s.data.length s.data hs]

/-! ### C9: dockerfile/compose selectors and the no-image error -/

/-- C9 (amended). Whenever neither an image selector nor a non-empty
image field is present — in particular for descriptors whose only
populated selector is dockerfile-based or compose-based — the synthesizer
fails with the single `noImageSpecified` error; no distinct
`UnsupportedSelector` error exists (see `BuildErr`). -/
theorem c9_unsupported_selector_same_error (env : String → Option String)
    (dc : DevContainer) (ws : String)
    (h1 : dc.imageContainer = none) (h2 : dc.image = "")
    (h3 : buildMissing env dc ws = []) :
    buildDockerRunCommand env dc ws = Except.error BuildErr.noImageSpecified := by
  have e1 : (resolvedDC env dc ws).imageContainer = dc.imageContainer := rfl
  have e2 : (resolvedDC env dc ws).image = dc.image := rfl
  simp only [buildDockerRunCommand]
  rw [h3, if_neg (by simp : ¬(([] : List String) ≠ [])), e1, h1, e2, h2]
  rfl

/-- A descriptor whose only populated selector is dockerfile-based. -/
def dockerfileOnlyDC : DevContainer := { dockerfileContainer := "Dockerfile" }

/-- A descriptor whose only populated selector is compose-based. -/
def composeOnlyDC : DevContainer := { composeService := some "app" }

/-- A descriptor with no selector populated at all. -/
def emptySelectorDC : DevContainer := {}

/-- Witness for C9 (amended): the dockerfile-only descriptor fails with
the no-image error. -/
theorem c9_unsupported_selector_same_error_witness :
    buildDockerRunCommand hostEnvEmpty dockerfileOnlyDC "/ws" =
      Except.error BuildErr.noImageSpecified :=
  c9_unsupported_selector_same_error hostEnvEmpty dockerfileOnlyDC "/ws" rfl rfl rfl

/-- C9 (counterexample). The claim says a dockerfile-based (or
compose-based) selector reaching the synthesizer fails with an
`UnsupportedSelector` error distinct from the `NoImageSpecified` error
raised when no selector is populated.  On the code, all three descriptors
— dockerfile-only, compose-only, and no selector at all — fail with the
very same `noImageSpecified` error; the synthesizer error type has no
unsupported-selector case at all. -/
theorem c9_counterexample :
    buildDockerRunCommand hostEnvEmpty dockerfileOnlyDC "/ws" =
      Except.error BuildErr.noImageSpecified ∧
    buildDockerRunCommand hostEnvEmpty composeOnlyDC "/ws" =
      Except.error BuildErr.noImageSpecified ∧
    buildDockerRunCommand hostEnvEmpty emptySelectorDC "/ws" =
      Except.error BuildErr.noImageSpecified :=
  ⟨rfl, rfl, rfl⟩

/-! ### C10: Manager.Create silent default fallback -/

theorem build_default_shape (env : String → Option String) (np : String) :
    buildDockerRunCommand env defaultDevContainer np =
      Except.ok
        { image := "alpine:latest"
          workspaceFolder := "/workspace"
          workspaceMount := "type=bind,source=" ++ absPath np ++ ",target=" ++
            "/workspace" } := by
  have hwf : expandVariableString env (getStandardVariables np) "/workspace" =
      "/workspace" :=
    expandVariableString_no_dollar env _ "/workspace" (by decide)
  have h1 : expandedDC env defaultDevContainer np = defaultDevContainer := by
    unfold expandedDC expandVariables defaultDevContainer
    simp [hwf]
  have h2 : resolvedDC env defaultDevContainer np = defaultDevContainer := by
    unfold resolvedDC
    rw [h1]
    rfl
  have h3 : buildMissing env defaultDevContainer np = [] := by
    unfold buildMissing mountMissingNames
    rw [h1]
    rfl
  simp only [buildDockerRunCommand]
  rw [h3, if_neg (by simp : ¬(([] : List String) ≠ [])), h2]
  rfl

/-- C10. When no pre-configured descriptor is set and loading
`<nodePath>/.devcontainer/devcontainer.json` fails, `Manager.Create` does
not propagate the load error: it proceeds with the default descriptor
(image `alpine:latest`, workspace folder `/workspace`), whose build
succeeds, for any load error, any node path and any host environment. -/
theorem c10_create_default_fallback (e : String) (np : String)
    (env : String → Option String) :
    createConfig none (Except.error e) [] env np =
      buildDockerRunCommand env defaultDevContainer np ∧
    buildDockerRunCommand env defaultDevContainer np =
      Except.ok
        { image := "alpine:latest"
          workspaceFolder := "/workspace"
          workspaceMount := "type=bind,source=" ++ absPath np ++ ",target=" ++
            "/workspace" } :=
  ⟨rfl, build_default_shape env np⟩

/-! ### C8: a cyclic extends chain never terminates -/

/-- A document path that extends itself: its `extends` value is its own
absolute `.json` path, which resolution rule (b) maps back to the same
path. -/
def cyclicPath : String := "/a/devcontainer.json"

/-- The one-document filesystem realizing the cycle. -/
def cyclicFS : String → Option RawDoc := fun p =>
  if p = cyclicPath then some { extendsRef := some cyclicPath, dc := {} } else none

/-- C8 (code bug). `LoadDevContainerWithExtends` keeps no seen-path
set: on the self-extending document it recurses on the same path forever.
For every fuel bound the fueled embedding is still running when the fuel
runs out — there is no depth at which the source recursion returns, with
or without an error — where the claim (and §9 of the spec) requires the
cycle to be detected and reported. -/
theorem c8_cyclic_extends_never_terminates (fuel : Nat) :
    loadDevContainerWithExtends cyclicFS fuel cyclicPath = none := by
  induction fuel with
  | zero => rfl
  | succ n ih =>
    have hres : resolveExtendsPath cyclicPath cyclicPath = cyclicPath := by rfl
    have hfs : cyclicFS cyclicPath =
        some { extendsRef := some cyclicPath, dc := {} } := by
      simp [cyclicFS]
    simp only [loadDevContainerWithExtends]
    rw [hfs]
    simp only [hres, ih]

end DevcontainerProof
